import Mathlib

/-!
Verification of the pyprofiler CPU profiler core (src/pyprofiler/profiler.py,
models/call_frame.py, utils/timer.py) against its specification.

The embedding models timestamps and durations as rationals, the random draw
of the sampling policy as an explicit parameter of each enter event, and the
single-threaded event stream seen by the decorator wrapper as a list of
events folded over an explicit profiler state.
-/

/-- CallFrame from models/call_frame.py: one invocation in the call tree.
The end_time field is initialised to 0 by the wrapper and only set when the
call returns, so 0 doubles as the sentinel of an unfinished frame. -/
structure CallFrame where
  name : String
  filename : String
  line_no : Nat
  start_time : ℚ
  end_time : ℚ
  children : List CallFrame

/-- CallFrame.duration property: total execution time including children. -/
def CallFrame.duration (f : CallFrame) : ℚ := f.end_time - f.start_time

/-- CallFrame.own_time property: execution time excluding children, clamped
at zero.  The same expression is recomputed inline by
CPUProfiler._calculate_own_time_recursive. -/
def CallFrame.own_time (f : CallFrame) : ℚ :=
  max 0 (f.duration - (f.children.map CallFrame.duration).sum)

/-- Association-list lookup, the shallow model of a Python dict lookup. -/
def alookup {α : Type} : List (String × α) → String → Option α
  | [], _ => none
  | (a, v) :: m, k => if a = k then some v else alookup m k

/-- Model of the own_times dict update in _calculate_own_time_recursive:
insert 0 if the key is missing, then add the frame's own time. -/
def bumpOwn : List (String × ℚ) → String → ℚ → List (String × ℚ)
  | [], k, v => [(k, v)]
  | (a, w) :: m, k, v =>
      if a = k then (a, w + v) :: m else (a, w) :: bumpOwn m k v

mutual
/-- CPUProfiler._calculate_own_time_recursive: add the frame's own time to
the per-name accumulator, then recurse over the children in order. -/
def calculate_own_time_recursive : CallFrame → List (String × ℚ) → List (String × ℚ)
  | ⟨n, fn, ln, st, en, ch⟩, m =>
      calculate_own_time_recursive_list ch
        (bumpOwn m n (CallFrame.own_time ⟨n, fn, ln, st, en, ch⟩))

/-- Sequential recursion over a list of frames, as the for-loop over
frame.children and over the roots of the call tree. -/
def calculate_own_time_recursive_list : List CallFrame → List (String × ℚ) → List (String × ℚ)
  | [], m => m
  | c :: cs, m => calculate_own_time_recursive_list cs (calculate_own_time_recursive c m)
end

mutual
/-- Does the name f occur at some position of the tree? -/
def CallFrame.mentions (f : String) : CallFrame → Bool
  | ⟨n, _, _, _, _, ch⟩ => if n = f then true else mentionsList f ch

/-- Does the name f occur in some tree of the list? -/
def mentionsList (f : String) : List CallFrame → Bool
  | [] => false
  | c :: cs => if CallFrame.mentions f c then true else mentionsList f cs
end

mutual
/-- Specification-side own time of the name f summed over every tree
position at which f appears (each position contributes its clamped
own time). -/
def specOwn (f : String) : CallFrame → ℚ
  | ⟨n, fn, ln, st, en, ch⟩ =>
      (if n = f then CallFrame.own_time ⟨n, fn, ln, st, en, ch⟩ else 0) + specOwnList f ch

/-- Sum of specOwn over a list of trees. -/
def specOwnList (f : String) : List CallFrame → ℚ
  | [] => 0
  | c :: cs => specOwn f c + specOwnList f cs
end

mutual
/-- Sum of the clamped own times of every frame of a tree. -/
def totalOwn : CallFrame → ℚ
  | ⟨n, fn, ln, st, en, ch⟩ =>
      CallFrame.own_time ⟨n, fn, ln, st, en, ch⟩ + totalOwnList ch

/-- Sum of totalOwn over a list of trees. -/
def totalOwnList : List CallFrame → ℚ
  | [] => 0
  | c :: cs => totalOwn c + totalOwnList cs
end

/-- A frame of the stack of currently executing calls
(CPUProfiler._current_call_frames): an accepted call that has not returned
yet, carrying the children completed so far. -/
structure OpenFrame where
  name : String
  filename : String
  line_no : Nat
  start_time : ℚ
  children : List CallFrame

/-- State of a CPUProfiler instance.  The pending field models the local
control flow of the decorator wrapper: one marker per wrapped call currently
executing, true when the call was accepted by the sampling policy (and hence
also sits on current_call_frames), false when the wrapper took one of its
early-return paths. -/
structure ProfilerState where
  sampling_rate : ℚ
  adaptive_sampling : Bool
  enabled : Bool
  is_running : Bool
  timer_start : ℚ
  timer_end : ℚ
  call_counts : String → Nat
  function_times : List (String × List ℚ)
  call_tree : List CallFrame
  current_call_frames : List OpenFrame
  caller_callee_counts : String → String → Nat
  function_avg_times : String → Option ℚ
  sample_counter : Nat
  pending : List Bool

/-- CPUProfiler.__init__ with the given sampling_rate and adaptive_sampling
flag; the rate is clamped into the unit interval.  The Timer starts with
both stamps at 0. -/
def CPUProfiler_init (sampling_rate : ℚ) (adaptive_sampling : Bool) : ProfilerState :=
  { sampling_rate := max 0 (min 1 sampling_rate)
    adaptive_sampling := adaptive_sampling
    enabled := true
    is_running := false
    timer_start := 0
    timer_end := 0
    call_counts := fun _ => 0
    function_times := []
    call_tree := []
    current_call_frames := []
    caller_callee_counts := fun _ _ => 0
    function_avg_times := fun _ => none
    sample_counter := 0
    pending := [] }

/-- Effective sampling rate computed by the wrapper before the random draw:
with adaptive sampling and recorded history, the base rate is doubled
(capped at 1) above the 1ms average, kept between 0.1ms and 1ms, and halved
(floored at 0.1) at or below 0.1ms. -/
def effectiveRate (s : ProfilerState) (f : String) : ℚ :=
  if s.adaptive_sampling then
    match s.function_avg_times f with
    | none => s.sampling_rate
    | some avg =>
        if avg > 1/1000 then min 1 (s.sampling_rate * 2)
        else if avg > 1/10000 then s.sampling_rate
        else max (1/10) (s.sampling_rate / 2)
  else s.sampling_rate

/-- The sampling decision of the wrapper: a call is measured when the
profiler is enabled and running and the random draw r does not exceed the
effective rate (the code rejects when random.random() is strictly greater
than the rate). -/
def enterAccepts (s : ProfilerState) (f : String) (r : ℚ) : Bool :=
  s.enabled && s.is_running && decide (r ≤ effectiveRate s f)

/-- Model of appending an elapsed time to self._function_times[name]
(creating the entry if missing). -/
def appendTime : List (String × List ℚ) → String → ℚ → List (String × List ℚ)
  | [], f, v => [(f, [v])]
  | (a, l) :: rest, f, v =>
      if a = f then (a, l ++ [v]) :: rest else (a, l) :: appendTime rest f v

/-- Events seen by the profiler in a single-threaded run: session control
(start/stop of the profiler, which starts/stops the Timer) and the
entry/exit boundaries of wrapped calls.  An enter event carries the value r
of the random draw performed by the wrapper and the monotonic timestamp t;
the matching exit carries its own timestamp. -/
inductive Event where
  | start (t : ℚ)
  | stop (t : ℚ)
  | enter (name filename : String) (line_no : Nat) (r t : ℚ)
  | exit (t : ℚ)

/-- One step of the profiler state machine, following the decorator wrapper
of CPUProfiler.profile_function and the start/stop methods. Timer.start
only restamps _start_time (it does not clear _end_time); Timer.stop
restamps _end_time. -/
def step (s : ProfilerState) (e : Event) : ProfilerState :=
  match e with
  | .start t => { s with is_running := true, timer_start := t }
  | .stop t => { s with is_running := false, timer_end := t }
  | .enter f fn ln r t =>
      if s.enabled && s.is_running then
        let rate := effectiveRate s f
        let s1 := { s with sample_counter := s.sample_counter + 1 }
        if r ≤ rate then
          let caller := ((s1.current_call_frames.head?.map OpenFrame.name).getD "<module>")
          { s1 with
              call_counts := fun g => if g = f then s1.call_counts g + 1 else s1.call_counts g
              caller_callee_counts := fun a b =>
                if a = caller ∧ b = f then s1.caller_callee_counts a b + 1
                else s1.caller_callee_counts a b
              current_call_frames := ⟨f, fn, ln, t, []⟩ :: s1.current_call_frames
              pending := true :: s1.pending }
        else
          { s1 with pending := false :: s1.pending }
      else
        { s with pending := false :: s.pending }
  | .exit t =>
      match s.pending with
      | [] => s
      | false :: p => { s with pending := p }
      | true :: p =>
          match s.current_call_frames with
          | [] => { s with pending := p }
          | fr :: rest =>
              let elapsed := t - fr.start_time
              let s1 :=
                if s.adaptive_sampling then
                  { s with function_avg_times := fun g =>
                      if g = fr.name then
                        some (9/10 * ((s.function_avg_times fr.name).getD 0) + 1/10 * elapsed)
                      else s.function_avg_times g }
                else s
              let completed : CallFrame := ⟨fr.name, fr.filename, fr.line_no, fr.start_time, t, fr.children⟩
              let s2 :=
                match rest with
                | [] =>
                    { s1 with current_call_frames := []
                              call_tree := s1.call_tree ++ [completed]
                              pending := p }
                | parent :: rs =>
                    { s1 with current_call_frames :=
                                { parent with children := parent.children ++ [completed] } :: rs
                              pending := p }
              { s2 with function_times := appendTime s2.function_times fr.name elapsed }

/-- Run a list of events from a state. -/
def run (s : ProfilerState) : List Event → ProfilerState
  | [] => s
  | e :: es => run (step s e) es

/-- Timer.elapsed read at monotonic time now: while _end_time is the 0
sentinel the timer counts from _start_time to now, otherwise it reports the
stopped span. -/
def elapsedAt (s : ProfilerState) (now : ℚ) : ℚ :=
  if s.timer_end = 0 then now - s.timer_start else s.timer_end - s.timer_start

/-- The open call stack materialised as the one extra root that
self._call_tree holds in the Python object graph: open frames carry the 0
end_time sentinel and each open frame is the last child of the open frame
below it. -/
def materializeOpen (fs : List OpenFrame) : Option CallFrame :=
  fs.foldl (fun acc fr =>
    some ⟨fr.name, fr.filename, fr.line_no, fr.start_time, 0, fr.children ++ acc.toList⟩) none

/-- The list of root CallFrames that get_stats walks: the completed roots
plus, when calls are still open, the materialised open root. -/
def snapshotTree (s : ProfilerState) : List CallFrame :=
  s.call_tree ++ (materializeOpen s.current_call_frames).toList

/-- FunctionStats from models/function_stats.py (callers and callees as
count functions derived from the caller/callee matrix). -/
structure FunctionStats where
  name : String
  call_count : Nat
  total_time : ℚ
  avg_time : ℚ
  own_time : ℚ
  percentage : ℚ
  callers : String → Nat
  callees : String → Nat

/-- ProfilerStats snapshot: session total time plus the per-function
statistics in the iteration order of the function_times dict. -/
structure ProfilerStats where
  total_time : ℚ
  function_stats : List (String × FunctionStats)

/-- The per-function body of the get_stats loop. -/
def buildFunctionStats (s : ProfilerState) (total_time : ℚ)
    (own_times : List (String × ℚ)) (func_name : String) (times : List ℚ) : FunctionStats :=
  let call_count := times.length
  let total := times.sum
  let avg := if call_count > 0 then total / call_count else 0
  let own_time := (alookup own_times func_name).getD total
  let percentage := if total_time > 0 then total / total_time * 100 else 0
  { name := func_name
    call_count := call_count
    total_time := total
    avg_time := avg
    own_time := own_time
    percentage := percentage
    callers := fun c => s.caller_callee_counts c func_name
    callees := fun c => s.caller_callee_counts func_name c }

/-- CPUProfiler.get_stats read at monotonic time now: the no-data result
(none) when the function_times dict is empty, otherwise the reduced
snapshot. -/
def get_stats (s : ProfilerState) (now : ℚ) : Option ProfilerStats :=
  match s.function_times with
  | [] => none
  | _ :: _ =>
      let total_time := elapsedAt s now
      let own_times := calculate_own_time_recursive_list (snapshotTree s) []
      some
        { total_time := total_time
          function_stats := s.function_times.map (fun p =>
            (p.1, buildFunctionStats s total_time own_times p.1 p.2)) }

/-- Lookup of one function's statistics in a get_stats result. -/
def statsFind (o : Option ProfilerStats) (f : String) : Option FunctionStats :=
  o.bind (fun st => alookup st.function_stats f)

/-- Sum of the reported own_time over all functions of a snapshot. -/
def statsOwnSum (st : ProfilerStats) : ℚ :=
  (st.function_stats.map (fun p => p.2.own_time)).sum

/-- Number of timing samples recorded in the state (over all functions). -/
def totalSamples (s : ProfilerState) : Nat :=
  (s.function_times.map (fun p => p.2.length)).sum

/-- Contribution of one event to the count of accepted enters for f. -/
def acceptedDelta (f : String) (s : ProfilerState) : Event → Nat
  | .enter g _ _ r _ => if g = f ∧ enterAccepts s g r then 1 else 0
  | _ => 0

/-- Number of enter events of the trace that the sampling policy accepts
for the function f, simulating the state alongside. -/
def acceptedEnters (f : String) (s : ProfilerState) : List Event → Nat
  | [] => 0
  | e :: es => acceptedDelta f s e + acceptedEnters f (step s e) es

/-- Number of timing samples recorded for f. -/
def timesLen (ft : List (String × List ℚ)) (f : String) : Nat :=
  ((alookup ft f).getD []).length

/-- Number of frames named f on the open call stack. -/
def openCount (frames : List OpenFrame) (f : String) : Nat :=
  frames.countP (fun fr => decide (fr.name = f))

/-! Basic lemmas about the association-list operations. -/

theorem alookup_map {β γ : Type} (F : String → β → γ) (ft : List (String × β)) (f : String) :
    alookup (ft.map (fun p => (p.1, F p.1 p.2))) f = (alookup ft f).map (F f) := by
  induction ft with
  | nil => rfl
  | cons p rest ih =>
      by_cases h : p.1 = f
      · simp [alookup, h]
      · simp [alookup, h, ih]

theorem alookup_appendTime (ft : List (String × List ℚ)) (f g : String) (v : ℚ) :
    alookup (appendTime ft f v) g =
      if f = g then some (((alookup ft g).getD []) ++ [v]) else alookup ft g := by
  induction ft with
  | nil =>
      by_cases h : f = g
      · simp [appendTime, alookup, h]
      · simp [appendTime, alookup, h]
  | cons p rest ih =>
      by_cases hpf : p.1 = f
      · by_cases hpg : p.1 = g
        · simp [appendTime, alookup, hpf, hpg, hpf ▸ hpg]
        · have hfg : ¬ f = g := fun h => hpg (hpf.trans h)
          simp [appendTime, alookup, hpf, hpg, hfg]
      · by_cases hpg : p.1 = g
        · have hfg : ¬ f = g := fun h => hpf (hpg.trans h.symm)
          have hgf : ¬ g = f := fun h => hfg h.symm
          simp [appendTime, alookup, hpf, hpg, hfg, hgf]
        · simp [appendTime, alookup, hpf, hpg, ih]

theorem mem_appendTime (ft : List (String × List ℚ)) (f : String) (v : ℚ)
    (hne : ∀ p ∈ ft, p.2 ≠ []) : ∀ p ∈ appendTime ft f v, p.2 ≠ [] := by
  induction ft with
  | nil => simp [appendTime]
  | cons q rest ih =>
      intro p hp
      by_cases hq : q.1 = f
      · simp [appendTime, hq] at hp
        rcases hp with hp | hp
        · simp [hp]
        · exact hne p (List.mem_cons_of_mem q hp)
      · simp [appendTime, hq] at hp
        rcases hp with hp | hp
        · exact hp ▸ hne q (List.mem_cons_self q rest)
        · exact ih (fun r hr => hne r (List.mem_cons_of_mem q hr)) p hp

theorem alookup_bumpOwn (m : List (String × ℚ)) (k : String) (v : ℚ) (g : String) :
    alookup (bumpOwn m k v) g =
      if k = g then some (((alookup m g).getD 0) + v) else alookup m g := by
  induction m with
  | nil =>
      by_cases h : k = g
      · simp [bumpOwn, alookup, h]
      · simp [bumpOwn, alookup, h]
  | cons p rest ih =>
      by_cases hpk : p.1 = k
      · by_cases hpg : p.1 = g
        · simp [bumpOwn, alookup, hpk, hpg, hpk ▸ hpg]
        · have hkg : ¬ k = g := fun h => hpg (hpk.trans h)
          simp [bumpOwn, alookup, hpk, hpg, hkg]
      · by_cases hpg : p.1 = g
        · have hkg : ¬ k = g := fun h => hpk (hpg.trans h.symm)
          have hgk : ¬ g = k := fun h => hkg h.symm
          simp [bumpOwn, alookup, hpk, hpg, hkg, hgk]
        · simp [bumpOwn, alookup, hpk, hpg, ih]

theorem sum_bumpOwn (m : List (String × ℚ)) (k : String) (v : ℚ) :
    ((bumpOwn m k v).map Prod.snd).sum = (m.map Prod.snd).sum + v := by
  induction m with
  | nil => simp [bumpOwn]
  | cons p rest ih =>
      by_cases hpk : p.1 = k
      · simp [bumpOwn, hpk]; ring
      · simp [bumpOwn, hpk, ih]; ring

theorem nonneg_bumpOwn (m : List (String × ℚ)) (k : String) (v : ℚ)
    (hm : ∀ p ∈ m, 0 ≤ p.2) (hv : 0 ≤ v) : ∀ p ∈ bumpOwn m k v, 0 ≤ p.2 := by
  induction m with
  | nil => simpa [bumpOwn] using hv
  | cons q rest ih =>
      intro p hp
      by_cases hq : q.1 = k
      · simp [bumpOwn, hq] at hp
        rcases hp with hp | hp
        · have := hm q (List.mem_cons_self q rest)
          simp [hp]; positivity
        · exact hm p (List.mem_cons_of_mem q hp)
      · simp [bumpOwn, hq] at hp
        rcases hp with hp | hp
        · exact hp ▸ hm q (List.mem_cons_self q rest)
        · exact ih (fun r hr => hm r (List.mem_cons_of_mem q hr)) p hp

theorem own_time_nonneg (c : CallFrame) : 0 ≤ c.own_time := le_max_left 0 _

/-! Lemmas tying the own-time walk to its specification-side description. -/

mutual
theorem specOwn_of_not_mentions : ∀ (c : CallFrame) (f : String),
    CallFrame.mentions f c = false → specOwn f c = 0
  | ⟨n, fn, ln, st, en, ch⟩, f, h => by
      by_cases hn : n = f
      · simp [CallFrame.mentions, hn] at h
      · simp [CallFrame.mentions, hn] at h
        simp [specOwn, hn, specOwnList_of_not_mentions ch f h]

theorem specOwnList_of_not_mentions : ∀ (l : List CallFrame) (f : String),
    mentionsList f l = false → specOwnList f l = 0
  | [], _, _ => rfl
  | c :: cs, f, h => by
      by_cases hc : CallFrame.mentions f c
      · simp [mentionsList, hc] at h
      · simp [mentionsList, hc] at h
        simp [specOwnList, specOwn_of_not_mentions c f (by simpa using hc),
          specOwnList_of_not_mentions cs f h]
end

mutual
theorem alookup_calc : ∀ (c : CallFrame) (m : List (String × ℚ)) (f : String),
    alookup (calculate_own_time_recursive c m) f =
      if CallFrame.mentions f c then some (((alookup m f).getD 0) + specOwn f c)
      else alookup m f
  | ⟨n, fn, ln, st, en, ch⟩, m, f => by
      have ihl := alookup_calc_list ch
        (bumpOwn m n (CallFrame.own_time ⟨n, fn, ln, st, en, ch⟩)) f
      rw [calculate_own_time_recursive, ihl, alookup_bumpOwn]
      by_cases hn : n = f
      · subst hn
        by_cases hch : mentionsList n ch
        · simp [CallFrame.mentions, specOwn, hch, add_assoc]
        · simp [CallFrame.mentions, specOwn, hch,
            specOwnList_of_not_mentions ch n (by simpa using hch)]
      · by_cases hch : mentionsList f ch
        · simp [CallFrame.mentions, specOwn, hn, hch]
        · simp [CallFrame.mentions, specOwn, hn, hch]

theorem alookup_calc_list : ∀ (l : List CallFrame) (m : List (String × ℚ)) (f : String),
    alookup (calculate_own_time_recursive_list l m) f =
      if mentionsList f l then some (((alookup m f).getD 0) + specOwnList f l)
      else alookup m f
  | [], m, f => by simp [calculate_own_time_recursive_list, mentionsList, specOwnList]
  | c :: cs, m, f => by
      have ihc := alookup_calc c m f
      have ihl := alookup_calc_list cs (calculate_own_time_recursive c m) f
      rw [calculate_own_time_recursive_list, ihl, ihc]
      by_cases h1 : CallFrame.mentions f c
      · by_cases h2 : mentionsList f cs
        · simp [mentionsList, specOwnList, h1, h2, add_assoc]
        · simp [mentionsList, specOwnList, h1, h2,
            specOwnList_of_not_mentions cs f (by simpa using h2)]
      · by_cases h2 : mentionsList f cs
        · simp [mentionsList, specOwnList, h1, h2,
            specOwn_of_not_mentions c f (by simpa using h1)]
        · simp [mentionsList, specOwnList, h1, h2]
end

mutual
theorem sum_calc : ∀ (c : CallFrame) (m : List (String × ℚ)),
    ((calculate_own_time_recursive c m).map Prod.snd).sum = (m.map Prod.snd).sum + totalOwn c
  | ⟨n, fn, ln, st, en, ch⟩, m => by
      rw [calculate_own_time_recursive, sum_calc_list, sum_bumpOwn, totalOwn]
      ring

theorem sum_calc_list : ∀ (l : List CallFrame) (m : List (String × ℚ)),
    ((calculate_own_time_recursive_list l m).map Prod.snd).sum
      = (m.map Prod.snd).sum + totalOwnList l
  | [], m => by simp [calculate_own_time_recursive_list, totalOwnList]
  | c :: cs, m => by
      rw [calculate_own_time_recursive_list, sum_calc_list, sum_calc, totalOwnList]
      ring
end

mutual
theorem nonneg_calc : ∀ (c : CallFrame) (m : List (String × ℚ)),
    (∀ p ∈ m, 0 ≤ p.2) → ∀ p ∈ calculate_own_time_recursive c m, 0 ≤ p.2
  | ⟨n, fn, ln, st, en, ch⟩, m, hm => by
      rw [calculate_own_time_recursive]
      exact nonneg_calc_list ch _ (nonneg_bumpOwn m n _ hm (own_time_nonneg _))

theorem nonneg_calc_list : ∀ (l : List CallFrame) (m : List (String × ℚ)),
    (∀ p ∈ m, 0 ≤ p.2) → ∀ p ∈ calculate_own_time_recursive_list l m, 0 ≤ p.2
  | [], m, hm => by simpa [calculate_own_time_recursive_list] using hm
  | c :: cs, m, hm => by
      rw [calculate_own_time_recursive_list]
      exact nonneg_calc_list cs _ (nonneg_calc c m hm)
end

/-- Well-formedness of a sequence of sibling call frames executed one after
another inside the window from lo to hi: each frame lies in the remaining
window, ends after it starts, its children fill its own span, and the later
siblings run after it.  This is the shape of the call tree produced by a
properly nested single-threaded session. -/
inductive SeqWF : ℚ → ℚ → List CallFrame → Prop where
  | nil : ∀ (lo hi : ℚ), lo ≤ hi → SeqWF lo hi []
  | cons : ∀ (lo hi : ℚ) (c : CallFrame) (cs : List CallFrame),
      lo ≤ c.start_time → c.start_time ≤ c.end_time →
      SeqWF c.start_time c.end_time c.children →
      SeqWF c.end_time hi cs →
      SeqWF lo hi (c :: cs)

theorem seqWF_sum_duration_le {lo hi : ℚ} {l : List CallFrame}
    (h : SeqWF lo hi l) : (l.map CallFrame.duration).sum ≤ hi - lo := by
  induction h with
  | nil lo hi hle => simp; linarith
  | cons lo hi c cs h1 h2 hch hrest ihch ihrest =>
      simp [CallFrame.duration]
      have hlo : lo ≤ c.start_time := h1
      simp [CallFrame.duration] at ihrest
      linarith

theorem seqWF_totalOwn_le_sum_duration {lo hi : ℚ} {l : List CallFrame}
    (h : SeqWF lo hi l) : totalOwnList l ≤ (l.map CallFrame.duration).sum := by
  induction h with
  | nil lo hi hle => simp [totalOwnList]
  | cons lo hi c cs h1 h2 hch hrest ihch ihrest =>
      obtain ⟨n, fn, ln, st, en, children⟩ := c
      have hchsum : (children.map CallFrame.duration).sum ≤ en - st := by
        simpa [CallFrame.duration] using seqWF_sum_duration_le hch
      have hzero : 0 ≤ (en - st) - (children.map CallFrame.duration).sum := by linarith
      have hown : CallFrame.own_time ⟨n, fn, ln, st, en, children⟩
          = (en - st) - (children.map CallFrame.duration).sum := by
        rw [CallFrame.own_time]
        simp only [CallFrame.duration]
        exact max_eq_right (by linarith)
      simp only [totalOwnList, totalOwn, List.map_cons, List.sum_cons]
      simp only [CallFrame.duration] at hchsum ihch ⊢
      rw [hown]
      simp only [CallFrame.duration] at hown ⊢
      linarith

theorem seqWF_totalOwn_le_window {lo hi : ℚ} {l : List CallFrame}
    (h : SeqWF lo hi l) : totalOwnList l ≤ hi - lo :=
  le_trans (seqWF_totalOwn_le_sum_duration h) (seqWF_sum_duration_le h)

/-- Remove the first entry with the given key from an association list. -/
def eraseKey : List (String × ℚ) → String → List (String × ℚ)
  | [], _ => []
  | (a, v) :: m, k => if a = k then m else (a, v) :: eraseKey m k

theorem alookup_eraseKey_ne (m : List (String × ℚ)) (k g : String) (h : g ≠ k) :
    alookup (eraseKey m k) g = alookup m g := by
  induction m with
  | nil => rfl
  | cons p rest ih =>
      by_cases hpk : p.1 = k
      · have hpg : ¬ p.1 = g := fun hh => h (hh ▸ hpk)
        have hkg : ¬ k = g := fun hh => h hh.symm
        simp [eraseKey, alookup, hpk, hpg, hkg]
      · simp [eraseKey, alookup, hpk, ih]

theorem sum_eraseKey (m : List (String × ℚ)) (k : String) :
    ((alookup m k).getD 0) + ((eraseKey m k).map Prod.snd).sum = (m.map Prod.snd).sum := by
  induction m with
  | nil => simp [eraseKey, alookup]
  | cons p rest ih =>
      by_cases hpk : p.1 = k
      · simp [eraseKey, alookup, hpk]
      · simp [eraseKey, alookup, hpk]
        rw [← ih]
        ring

theorem mem_eraseKey (m : List (String × ℚ)) (k : String) :
    ∀ p ∈ eraseKey m k, p ∈ m := by
  induction m with
  | nil => simp [eraseKey]
  | cons q rest ih =>
      intro p hp
      by_cases hqk : q.1 = k
      · simp [eraseKey, hqk] at hp
        exact List.mem_cons_of_mem q hp
      · simp [eraseKey, hqk] at hp
        rcases hp with hp | hp
        · exact hp ▸ List.mem_cons_self q rest
        · exact List.mem_cons_of_mem q (ih p hp)

theorem sum_lookup_le (ks : List String) (m : List (String × ℚ))
    (hks : ks.Nodup) (hm : ∀ p ∈ m, 0 ≤ p.2) :
    (ks.map (fun k => (alookup m k).getD 0)).sum ≤ (m.map Prod.snd).sum := by
  induction ks generalizing m with
  | nil =>
      simp
      exact List.sum_nonneg (by
        intro x hx
        obtain ⟨p, hp, hpx⟩ := List.mem_map.mp hx
        exact hpx ▸ hm p hp)
  | cons k ks ih =>
      have hknotin : k ∉ ks := (List.nodup_cons.mp hks).1
      have hksnd : ks.Nodup := (List.nodup_cons.mp hks).2
      have hcongr : ks.map (fun g => (alookup m g).getD 0)
          = ks.map (fun g => (alookup (eraseKey m k) g).getD 0) := by
        apply List.map_congr_left
        intro g hg
        rw [alookup_eraseKey_ne m k g (fun hh => hknotin (hh ▸ hg))]
      have hrec := ih (eraseKey m k) hksnd (fun p hp => hm p (mem_eraseKey m k p hp))
      calc ((k :: ks).map (fun g => (alookup m g).getD 0)).sum
          = (alookup m k).getD 0 + (ks.map (fun g => (alookup m g).getD 0)).sum := by simp
        _ = (alookup m k).getD 0 + (ks.map (fun g => (alookup (eraseKey m k) g).getD 0)).sum := by
              rw [hcongr]
        _ ≤ (alookup m k).getD 0 + ((eraseKey m k).map Prod.snd).sum := by linarith
        _ = (m.map Prod.snd).sum := sum_eraseKey m k

/-! Lemmas about the shape of a get_stats result. -/

theorem statsFind_get_stats (s : ProfilerState) (now : ℚ) (f : String) :
    statsFind (get_stats s now) f =
      (alookup s.function_times f).map (fun times =>
        buildFunctionStats s (elapsedAt s now)
          (calculate_own_time_recursive_list (snapshotTree s) []) f times) := by
  cases hft : s.function_times with
  | nil => simp [get_stats, statsFind, hft, alookup]
  | cons p rest =>
      unfold get_stats
      rw [hft]
      simp only [statsFind, Option.bind_some]
      rw [← hft]
      exact alookup_map _ s.function_times f

theorem get_stats_eq_none_iff (s : ProfilerState) (now : ℚ) :
    get_stats s now = none ↔ s.function_times = [] := by
  cases hft : s.function_times with
  | nil => simp [get_stats, hft]
  | cons p rest => simp [get_stats, hft]

theorem get_stats_total_time (s : ProfilerState) (now : ℚ)
    (h : s.function_times ≠ []) :
    (get_stats s now).map ProfilerStats.total_time = some (elapsedAt s now) := by
  cases hft : s.function_times with
  | nil => exact absurd hft h
  | cons p rest =>
      unfold get_stats
      rw [hft]
      rfl

theorem timesLen_appendTime (ft : List (String × List ℚ)) (f g : String) (v : ℚ) :
    timesLen (appendTime ft f v) g = timesLen ft g + (if f = g then 1 else 0) := by
  unfold timesLen
  rw [alookup_appendTime]
  by_cases h : f = g
  · simp [h]
  · simp [h]

/-- One step preserves the alignment of pending markers with the open call
stack, and changes the number of samples plus open frames of a function
exactly by the number of accepted enters of the event. -/
theorem step_count (s : ProfilerState) (e : Event) (f : String)
    (hI : s.pending.count true = s.current_call_frames.length) :
    (timesLen (step s e).function_times f + openCount (step s e).current_call_frames f
      = timesLen s.function_times f + openCount s.current_call_frames f + acceptedDelta f s e)
    ∧ (step s e).pending.count true = (step s e).current_call_frames.length := by
  cases e with
  | start t => simpa [step, acceptedDelta] using hI
  | stop t => simpa [step, acceptedDelta] using hI
  | enter g fn ln r t =>
      by_cases hen : (s.enabled && s.is_running) = true
      · by_cases hr : r ≤ effectiveRate s g
        · constructor
          · simp only [step, hen, if_true, hr, if_pos]
            simp only [acceptedDelta, enterAccepts, hen, hr, decide_eq_true_eq]
            by_cases hgf : g = f
            · simp [openCount, List.countP_cons, hgf, hen]
              omega
            · simp [openCount, List.countP_cons, hgf, hen]
          · simp only [step, hen, if_true, hr, if_pos]
            simp [List.count_cons, hI]
        · constructor
          · simp only [step, hen, if_true, hr, if_neg, not_false_iff]
            simp [acceptedDelta, enterAccepts, hr]
          · simp only [step, hen, if_true, hr, if_neg, not_false_iff]
            simp [List.count_cons, hI]
      · have hen' : (s.enabled && s.is_running) = false := by
          simpa using hen
        constructor
        · simp only [step, hen', Bool.false_eq_true, if_false]
          simp [acceptedDelta, enterAccepts, hen']
        · simp only [step, hen', Bool.false_eq_true, if_false]
          simp [List.count_cons, hI]
  | exit t =>
      cases hp : s.pending with
      | nil =>
          have h0 : s.current_call_frames.length = 0 := by
            rw [← hI, hp]; simp
          constructor
          · simp [step, hp, acceptedDelta]
          · simp [step, hp]
            omega
      | cons b pp =>
          cases b with
          | false =>
              constructor
              · simp [step, hp, acceptedDelta]
              · simp only [step, hp]
                rw [hp] at hI
                simpa using hI
          | true =>
              cases hcf : s.current_call_frames with
              | nil =>
                  rw [hp, hcf] at hI
                  simp [List.count_cons] at hI
              | cons fr rest =>
                  rw [hp, hcf] at hI
                  simp [List.count_cons] at hI
                  cases rest with
                  | nil =>
                      simp only [List.length_nil] at hI
                      constructor
                      · cases had : s.adaptive_sampling
                        · simp [step, hp, hcf, had, timesLen_appendTime, acceptedDelta,
                            openCount, List.countP_cons]
                        · simp [step, hp, hcf, had, timesLen_appendTime, acceptedDelta,
                            openCount, List.countP_cons]
                      · cases had : s.adaptive_sampling
                        · simp [step, hp, hcf, had, List.count_cons]
                          omega
                        · simp [step, hp, hcf, had, List.count_cons]
                          omega
                  | cons parent rs =>
                      simp only [List.length_cons] at hI
                      constructor
                      · cases had : s.adaptive_sampling
                        · simp [step, hp, hcf, had, timesLen_appendTime, acceptedDelta,
                            openCount, List.countP_cons]
                          all_goals (by_cases hgf : fr.name = f <;> simp [hgf])
                          all_goals omega
                        · simp [step, hp, hcf, had, timesLen_appendTime, acceptedDelta,
                            openCount, List.countP_cons]
                          all_goals (by_cases hgf : fr.name = f <;> simp [hgf])
                          all_goals omega
                      · cases had : s.adaptive_sampling
                        · simp [step, hp, hcf, had, List.count_cons]
                          omega
                        · simp [step, hp, hcf, had, List.count_cons]
                          omega

/-- Running a trace changes samples plus open frames of a function exactly
by its number of accepted enters, and keeps the marker stack aligned with
the open call stack. -/
theorem run_count (f : String) : ∀ (es : List Event) (s : ProfilerState),
    s.pending.count true = s.current_call_frames.length →
    (timesLen (run s es).function_times f + openCount (run s es).current_call_frames f
      = timesLen s.function_times f + openCount s.current_call_frames f + acceptedEnters f s es)
    ∧ (run s es).pending.count true = (run s es).current_call_frames.length
  | [], s, hI => by simp [run, acceptedEnters, hI]
  | e :: es, s, hI => by
      have hstep := step_count s e f hI
      have hrec := run_count f es (step s e) hstep.2
      refine ⟨?_, hrec.2⟩
      have h1 := hstep.1
      have h2 := hrec.1
      simp only [run, acceptedEnters]
      omega

/-- Every entry of the timing-samples dict is a nonempty list: entries are
only ever created carrying their first sample. -/
theorem step_nonempty_times (s : ProfilerState) (e : Event)
    (h : ∀ p ∈ s.function_times, p.2 ≠ []) :
    ∀ p ∈ (step s e).function_times, p.2 ≠ [] := by
  cases e with
  | start t => simpa [step] using h
  | stop t => simpa [step] using h
  | enter g fn ln r t =>
      by_cases hen : (s.enabled && s.is_running) = true
      · by_cases hr : r ≤ effectiveRate s g
        · simpa [step, hen, hr] using h
        · simpa [step, hen, hr] using h
      · have hen' : (s.enabled && s.is_running) = false := by simpa using hen
        simpa [step, hen'] using h
  | exit t =>
      cases hp : s.pending with
      | nil => simpa [step, hp] using h
      | cons b pp =>
          cases b with
          | false => simpa [step, hp] using h
          | true =>
              cases hcf : s.current_call_frames with
              | nil => simpa [step, hp, hcf] using h
              | cons fr rest =>
                  cases rest with
                  | nil =>
                      cases had : s.adaptive_sampling
                      · simp only [step, hp, hcf, had]
                        exact mem_appendTime _ _ _ (by simpa using h)
                      · simp only [step, hp, hcf, had]
                        exact mem_appendTime _ _ _ (by simpa using h)
                  | cons parent rs =>
                      cases had : s.adaptive_sampling
                      · simp only [step, hp, hcf, had]
                        exact mem_appendTime _ _ _ (by simpa using h)
                      · simp only [step, hp, hcf, had]
                        exact mem_appendTime _ _ _ (by simpa using h)

theorem run_nonempty_times : ∀ (es : List Event) (s : ProfilerState),
    (∀ p ∈ s.function_times, p.2 ≠ []) →
    ∀ p ∈ (run s es).function_times, p.2 ≠ []
  | [], s, h => by simpa [run] using h
  | e :: es, s, h => by
      simp only [run]
      exact run_nonempty_times es (step s e) (step_nonempty_times s e h)

theorem alookup_mem {α : Type} (m : List (String × α)) (k : String) (v : α)
    (h : alookup m k = some v) : (k, v) ∈ m := by
  induction m with
  | nil => simp [alookup] at h
  | cons p rest ih =>
      obtain ⟨a, b⟩ := p
      by_cases hp : a = k
      · simp [alookup, hp] at h
        simp [hp, h]
      · simp [alookup, hp] at h
        exact List.mem_cons_of_mem _ (ih h)

/-- C1: for every sequence of enter/exit events executed with
sampling_rate 1.0 in which every wrapped call has completed (the wrapper
stack is empty at the end), the call_count that get_stats reports for a
function f equals the number of enter events the sampling policy accepted
for f: one accepted enter appends exactly one timing sample on exit, and
the reported call_count is the number of timing samples. -/
theorem claim_C1_call_count_eq_accepted_enters (adaptive : Bool) (es : List Event)
    (f : String) (now : ℚ)
    (hbal : (run (CPUProfiler_init 1 adaptive) es).pending = []) :
    (statsFind (get_stats (run (CPUProfiler_init 1 adaptive) es) now) f).map
        FunctionStats.call_count
      = if 0 < acceptedEnters f (CPUProfiler_init 1 adaptive) es
        then some (acceptedEnters f (CPUProfiler_init 1 adaptive) es) else none := by
  have hI0 : (CPUProfiler_init 1 adaptive).pending.count true
      = (CPUProfiler_init 1 adaptive).current_call_frames.length := by
    simp [CPUProfiler_init]
  have hc := run_count f es (CPUProfiler_init 1 adaptive) hI0
  have hframes : (run (CPUProfiler_init 1 adaptive) es).current_call_frames = [] := by
    have h2 := hc.2
    rw [hbal] at h2
    simpa using (List.length_eq_zero.mp h2.symm)
  have hlen : timesLen (run (CPUProfiler_init 1 adaptive) es).function_times f
      = acceptedEnters f (CPUProfiler_init 1 adaptive) es := by
    have h1 := hc.1
    have hinit_t : timesLen (CPUProfiler_init 1 adaptive).function_times f = 0 := by
      simp [CPUProfiler_init, timesLen, alookup]
    have hinit_o : openCount (CPUProfiler_init 1 adaptive).current_call_frames f = 0 := by
      simp [CPUProfiler_init, openCount]
    rw [hframes, hinit_t, hinit_o] at h1
    simpa [openCount] using h1
  have hne := run_nonempty_times es (CPUProfiler_init 1 adaptive) (by simp [CPUProfiler_init])
  rw [statsFind_get_stats]
  cases hlk : alookup (run (CPUProfiler_init 1 adaptive) es).function_times f with
  | none =>
      have hz : timesLen (run (CPUProfiler_init 1 adaptive) es).function_times f = 0 := by
        simp [timesLen, hlk]
      rw [hz] at hlen
      rw [← hlen]
      simp
  | some ts =>
      have hts : ts ≠ [] := hne (f, ts) (alookup_mem _ _ _ hlk)
      have htslen : ts.length = acceptedEnters f (CPUProfiler_init 1 adaptive) es := by
        simpa [timesLen, hlk] using hlen
      have hpos : 0 < ts.length := List.length_pos.mpr hts
      rw [← htslen]
      simp [hpos, buildFunctionStats]

/-- Concrete completed trace instantiating the C1 theorem: one profiled
call to f, accepted with draw 1/2 at rate 1. -/
def c1Events : List Event :=
  [Event.start 0, Event.enter "f" "m" 1 (1/2) 1, Event.exit 2, Event.stop 3]

theorem claim_C1_witness :
    (run (CPUProfiler_init 1 false) c1Events).pending = [] ∧
    (statsFind (get_stats (run (CPUProfiler_init 1 false) c1Events) 3) "f").map
        FunctionStats.call_count
      = if 0 < acceptedEnters "f" (CPUProfiler_init 1 false) c1Events
        then some (acceptedEnters "f" (CPUProfiler_init 1 false) c1Events) else none :=
  ⟨by norm_num [c1Events, run, step, CPUProfiler_init, effectiveRate, appendTime],
   claim_C1_call_count_eq_accepted_enters false c1Events "f" 3
     (by norm_num [c1Events, run, step, CPUProfiler_init, effectiveRate, appendTime])⟩

/-- C2: for every profiler state, the own time that get_stats reports for a
function whose name appears in the call tree is the per-name total of one
depth-first walk over every root CallFrame, each visited frame contributing
max(0, duration minus the sum of its children's durations), summed over all
tree positions at which the name appears. -/
theorem claim_C2_own_time_is_tree_walk (s : ProfilerState) (now : ℚ) (f : String)
    (hmem : mentionsList f (snapshotTree s) = true)
    (hts : (alookup s.function_times f).isSome) :
    (statsFind (get_stats s now) f).map FunctionStats.own_time
      = some (specOwnList f (snapshotTree s)) := by
  obtain ⟨ts, hlk⟩ := Option.isSome_iff_exists.mp hts
  rw [statsFind_get_stats, hlk]
  simp [buildFunctionStats, alookup_calc_list, hmem, alookup]

/-- Concrete trace instantiating the C2 theorem: one completed profiled
call to f from 1 to 2 inside a session from 0 to 3. -/
def c2Events : List Event :=
  [Event.start 0, Event.enter "f" "m" 1 (1/2) 1, Event.exit 2, Event.stop 3]

theorem claim_C2_witness :
    mentionsList "f" (snapshotTree (run (CPUProfiler_init 1 false) c2Events)) = true ∧
    (alookup (run (CPUProfiler_init 1 false) c2Events).function_times "f").isSome ∧
    (statsFind (get_stats (run (CPUProfiler_init 1 false) c2Events) 3) "f").map
        FunctionStats.own_time
      = some (specOwnList "f" (snapshotTree (run (CPUProfiler_init 1 false) c2Events))) :=
  ⟨by norm_num [c2Events, run, step, CPUProfiler_init, effectiveRate, appendTime,
      snapshotTree, materializeOpen, mentionsList, CallFrame.mentions],
   by norm_num [c2Events, run, step, CPUProfiler_init, effectiveRate, appendTime, alookup],
   claim_C2_own_time_is_tree_walk (run (CPUProfiler_init 1 false) c2Events) 3 "f"
     (by norm_num [c2Events, run, step, CPUProfiler_init, effectiveRate, appendTime,
        snapshotTree, materializeOpen, mentionsList, CallFrame.mentions])
     (by norm_num [c2Events, run, step, CPUProfiler_init, effectiveRate, appendTime, alookup])⟩

/-- C10: a function that has timing samples but appears at no position of
the call tree is reported with own_time equal to the sum of its timing
samples (its total_time): the own_times walk yields no entry for it and
get_stats falls back to the total. -/
theorem claim_C10_own_time_defaults_to_total (s : ProfilerState) (now : ℚ)
    (f : String) (ts : List ℚ)
    (hmem : mentionsList f (snapshotTree s) = false)
    (hlk : alookup s.function_times f = some ts) :
    (statsFind (get_stats s now) f).map FunctionStats.own_time = some ts.sum := by
  rw [statsFind_get_stats, hlk]
  simp [buildFunctionStats, alookup_calc_list, hmem, alookup]

/-- State with a timing sample for f but an empty call tree, instantiating
the C10 theorem. -/
def c10State : ProfilerState :=
  { CPUProfiler_init 1 false with function_times := [("f", [3])] }

theorem claim_C10_witness :
    mentionsList "f" (snapshotTree c10State) = false ∧
    alookup c10State.function_times "f" = some [3] ∧
    (statsFind (get_stats c10State 5) "f").map FunctionStats.own_time
      = some (List.sum [3]) :=
  ⟨by simp [c10State, CPUProfiler_init, snapshotTree, materializeOpen, mentionsList],
   by simp [c10State, CPUProfiler_init, alookup],
   claim_C10_own_time_defaults_to_total c10State 5 "f" [3]
     (by simp [c10State, CPUProfiler_init, snapshotTree, materializeOpen, mentionsList])
     (by simp [c10State, CPUProfiler_init, alookup])⟩

/-- C5: get_stats returns the distinct no-data result (none) exactly when
no timing samples have been recorded, for every trace run from a freshly
constructed profiler; in particular it returns no data on the fresh
profiler itself, before any start or measured call. -/
theorem claim_C5_no_data_iff_no_samples (rate : ℚ) (adaptive : Bool)
    (es : List Event) (now now2 : ℚ) :
    (get_stats (run (CPUProfiler_init rate adaptive) es) now = none
      ↔ totalSamples (run (CPUProfiler_init rate adaptive) es) = 0)
    ∧ get_stats (CPUProfiler_init rate adaptive) now2 = none := by
  constructor
  · rw [get_stats_eq_none_iff]
    have hne := run_nonempty_times es (CPUProfiler_init rate adaptive)
      (by simp [CPUProfiler_init])
    constructor
    · intro h
      simp [totalSamples, h]
    · intro h
      cases hft : (run (CPUProfiler_init rate adaptive) es).function_times with
      | nil => rfl
      | cons p rest =>
          exfalso
          have hp := hne p (by rw [hft]; exact List.mem_cons_self p rest)
          rw [totalSamples, hft] at h
          simp at h
          exact hp h.1
  · rw [get_stats_eq_none_iff]
    simp [CPUProfiler_init]

/-- C7: a call whose sampling decision is reject leaves the whole profiler
state unchanged apart from the internal sample counter that the
accept/reject check itself increments: no call count, timing sample,
CallFrame, caller/callee matrix entry or adaptive average is touched by its
enter or its exit.  (Return values are not instrumented at all: the wrapper
returns the wrapped call's result unchanged on this path.) -/
theorem claim_C7_rejected_call_changes_nothing (s : ProfilerState) (f fn : String)
    (ln : Nat) (r t u : ℚ) (hen : s.enabled = true) (hrun : s.is_running = true)
    (hrej : effectiveRate s f < r) :
    run s [Event.enter f fn ln r t, Event.exit u]
      = { s with sample_counter := s.sample_counter + 1 } := by
  have hb : (s.enabled && s.is_running) = true := by simp [hen, hrun]
  have hnr : ¬ (r ≤ effectiveRate s f) := not_le.mpr hrej
  simp [run, step, hb, hnr]

/-- Running state with sampling rate one half, instantiating the C7
theorem with the rejected draw three quarters. -/
def c7State : ProfilerState := step (CPUProfiler_init (1/2) false) (Event.start 0)

theorem claim_C7_witness :
    c7State.enabled = true ∧ c7State.is_running = true ∧
    effectiveRate c7State "f" < 3/4 ∧
    run c7State [Event.enter "f" "m" 1 (3/4) 1, Event.exit 2]
      = { c7State with sample_counter := c7State.sample_counter + 1 } :=
  ⟨rfl, rfl,
   by norm_num [c7State, step, CPUProfiler_init, effectiveRate],
   claim_C7_rejected_call_changes_nothing c7State "f" "m" 1 (3/4) 1 2 rfl rfl
     (by norm_num [c7State, step, CPUProfiler_init, effectiveRate])⟩

/-- Completed session used by the C4 counterexample: one measured call,
then the session is stopped at time 3 (and, in the second run, stopped a
second time at time 4). -/
def c4Events : List Event :=
  [Event.start 0, Event.enter "f" "m" 1 (1/2) 1, Event.exit 2]

/-- C4 counterexample: stop() restamps the Timer end on every call, so a
second stop at a later monotonic time changes the reported total_time (3
becomes 4) and the two ProfilerStats are not identical. -/
theorem claim_C4_counterexample :
    (get_stats (run (CPUProfiler_init 1 false) (c4Events ++ [Event.stop 3])) 5).map
        ProfilerStats.total_time = some 3
    ∧ (get_stats (run (CPUProfiler_init 1 false)
          (c4Events ++ [Event.stop 3, Event.stop 4])) 5).map
        ProfilerStats.total_time = some 4
    ∧ get_stats (run (CPUProfiler_init 1 false) (c4Events ++ [Event.stop 3])) 5
        ≠ get_stats (run (CPUProfiler_init 1 false)
            (c4Events ++ [Event.stop 3, Event.stop 4])) 5 := by
  have h1 : (get_stats (run (CPUProfiler_init 1 false) (c4Events ++ [Event.stop 3])) 5).map
      ProfilerStats.total_time = some 3 := by
    norm_num [c4Events, run, step, CPUProfiler_init, effectiveRate, appendTime,
      get_stats, elapsedAt, snapshotTree, materializeOpen]
  have h2 : (get_stats (run (CPUProfiler_init 1 false)
        (c4Events ++ [Event.stop 3, Event.stop 4])) 5).map
      ProfilerStats.total_time = some 4 := by
    norm_num [c4Events, run, step, CPUProfiler_init, effectiveRate, appendTime,
      get_stats, elapsedAt, snapshotTree, materializeOpen]
  refine ⟨h1, h2, fun h => ?_⟩
  rw [h] at h1
  rw [h2] at h1
  exact (by norm_num : (4 : ℚ) ≠ 3) (Option.some.inj h1)

/-- C4 amended: the second stop loses no recorded data, leaving every
counter, timing sample, the call tree, the open stack, the caller/callee
matrix and the adaptive averages unchanged; and stopping twice at the same
monotonic timestamp is a strict no-op, so the ProfilerStats can only differ
through total_time (and the percentages derived from it) when time has
advanced between the two stops. -/
theorem claim_C4_stop_idempotent_up_to_timer (s : ProfilerState) (t u : ℚ) :
    step (step s (Event.stop t)) (Event.stop t) = step s (Event.stop t)
    ∧ (step (step s (Event.stop t)) (Event.stop u)).function_times = s.function_times
    ∧ (step (step s (Event.stop t)) (Event.stop u)).call_tree = s.call_tree
    ∧ (step (step s (Event.stop t)) (Event.stop u)).current_call_frames
        = s.current_call_frames
    ∧ (step (step s (Event.stop t)) (Event.stop u)).call_counts = s.call_counts
    ∧ (step (step s (Event.stop t)) (Event.stop u)).caller_callee_counts
        = s.caller_callee_counts
    ∧ (step (step s (Event.stop t)) (Event.stop u)).function_avg_times
        = s.function_avg_times :=
  ⟨rfl, rfl, rfl, rfl, rfl, rfl, rfl⟩

/-- Every random draw of the trace is strictly positive. -/
def positiveDraws : List Event → Prop
  | [] => True
  | Event.enter _ _ _ r _ :: es => 0 < r ∧ positiveDraws es
  | _ :: es => positiveDraws es

/-- Invariant of a zero-rate profiler that has never accepted a call. -/
def freshData (s : ProfilerState) : Prop :=
  s.sampling_rate = 0 ∧ s.call_tree = [] ∧ s.current_call_frames = []
  ∧ s.function_times = [] ∧ (∀ g, s.function_avg_times g = none)

theorem step_fresh (s : ProfilerState) (e : Event) (hf : freshData s)
    (hr : ∀ (g fn : String) (ln : Nat) (r t : ℚ), e = Event.enter g fn ln r t → 0 < r) :
    freshData (step s e) := by
  obtain ⟨h0, h1, h2, h3, h4⟩ := hf
  cases e with
  | start t => exact ⟨h0, h1, h2, h3, h4⟩
  | stop t => exact ⟨h0, h1, h2, h3, h4⟩
  | exit t =>
      cases hp : s.pending with
      | nil =>
          simp only [step, hp]
          exact ⟨h0, h1, h2, h3, h4⟩
      | cons b pp =>
          cases b with
          | false =>
              simp only [step, hp]
              exact ⟨h0, h1, h2, h3, h4⟩
          | true =>
              simp only [step, hp, h2]
              exact ⟨h0, h1, rfl, h3, h4⟩
  | enter g fn ln r t =>
      have hrpos : 0 < r := hr g fn ln r t rfl
      have hrate : effectiveRate s g = 0 := by
        unfold effectiveRate
        cases had : s.adaptive_sampling
        · simp [h0]
        · simp [h4 g, h0]
      by_cases hen : (s.enabled && s.is_running) = true
      · have hnr : ¬ (r ≤ effectiveRate s g) := by
          rw [hrate]
          exact not_le.mpr hrpos
        simp only [step, hen, if_true, hnr, if_neg, not_false_iff]
        exact ⟨h0, h1, h2, h3, h4⟩
      · have hen' : (s.enabled && s.is_running) = false := by simpa using hen
        simp only [step, hen', Bool.false_eq_true, if_false]
        exact ⟨h0, h1, h2, h3, h4⟩

theorem run_fresh : ∀ (es : List Event) (s : ProfilerState),
    freshData s → positiveDraws es → freshData (run s es)
  | [], _, hf, _ => hf
  | e :: es, s, hf, hp => by
      have hef : freshData (step s e) := by
        apply step_fresh s e hf
        intro g fn ln r t he
        subst he
        simp only [positiveDraws] at hp
        exact hp.1
      have hpr : positiveDraws es := by
        cases e <;> simp only [positiveDraws] at hp ⊢ <;> try exact hp
        exact hp.2
      exact run_fresh es (step s e) hef hpr

/-- C6 amended: with sampling_rate 0, for every sequence of events whose
random draws are all strictly positive, no CallFrame is ever created (the
call tree and the open stack stay empty) and get_stats returns no data.
The strict positivity is needed: the code rejects only when the draw
strictly exceeds the rate, so the draw 0.0 (a possible value of
random.random()) is accepted even at rate 0. -/
theorem claim_C6_zero_rate_no_frames (adaptive : Bool) (es : List Event) (now : ℚ)
    (hpos : positiveDraws es) :
    (run (CPUProfiler_init 0 adaptive) es).call_tree = []
    ∧ (run (CPUProfiler_init 0 adaptive) es).current_call_frames = []
    ∧ get_stats (run (CPUProfiler_init 0 adaptive) es) now = none := by
  have h0 : freshData (CPUProfiler_init 0 adaptive) := by
    refine ⟨?_, rfl, rfl, rfl, fun g => rfl⟩
    simp [CPUProfiler_init]
  have hfin := run_fresh es _ h0 hpos
  exact ⟨hfin.2.1, hfin.2.2.1, by
    rw [get_stats_eq_none_iff]
    exact hfin.2.2.2.1⟩

/-- Trace with one wrapped call whose draw is exactly 0, used by the C6
counterexample. -/
def c6Events : List Event :=
  [Event.start 0, Event.enter "f" "m" 1 0 1, Event.exit 2]

/-- C6 counterexample: at sampling_rate 0 a call whose random draw is
exactly 0 is accepted (the code only rejects draws strictly above the
rate), so a CallFrame is created and get_stats returns data, refuting the
claim for arbitrary draw sequences. -/
theorem claim_C6_counterexample :
    (run (CPUProfiler_init 0 false) c6Events).call_tree.length = 1
    ∧ (get_stats (run (CPUProfiler_init 0 false) c6Events) 3).isSome = true := by
  constructor
  · norm_num [c6Events, run, step, CPUProfiler_init, effectiveRate, appendTime]
  · norm_num [c6Events, run, step, CPUProfiler_init, effectiveRate, appendTime, get_stats]

/-- Trace with one wrapped call with a strictly positive draw, used by the
C6 witness. -/
def c6PosEvents : List Event :=
  [Event.start 0, Event.enter "f" "m" 1 (1/2) 1, Event.exit 2]

theorem claim_C6_witness :
    positiveDraws c6PosEvents
    ∧ (run (CPUProfiler_init 0 false) c6PosEvents).call_tree = []
    ∧ (run (CPUProfiler_init 0 false) c6PosEvents).current_call_frames = []
    ∧ get_stats (run (CPUProfiler_init 0 false) c6PosEvents) 3 = none :=
  ⟨by norm_num [c6PosEvents, positiveDraws],
   claim_C6_zero_rate_no_frames false c6PosEvents 3
     (by norm_num [c6PosEvents, positiveDraws])⟩

/-- C8 amended: in adaptive mode the policy keeps, per function, an
exponential moving average updated on every measured completed call as
0.9 times the previous average (0 when there is no history) plus 0.1 times
the latest observed value, where the latest value is the call's full
elapsed duration from its enter to its exit timestamp (inclusive of nested
calls, not the own duration); a function whose average exceeds the slow
threshold 1/1000 has its effective sampling probability doubled and capped
at 1, a function at or below the fast threshold 1/10000 has it halved and
floored at 1/10, and a function with no history uses the base rate. -/
theorem claim_C8_adaptive_policy (s : ProfilerState) (f : String) (a t : ℚ)
    (fr : OpenFrame) (rest : List OpenFrame) (pp : List Bool)
    (had : s.adaptive_sampling = true) :
    (s.function_avg_times f = none → effectiveRate s f = s.sampling_rate)
    ∧ (s.function_avg_times f = some a → 1/1000 < a →
        effectiveRate s f = min 1 (s.sampling_rate * 2))
    ∧ (s.function_avg_times f = some a → a ≤ 1/10000 →
        effectiveRate s f = max (1/10) (s.sampling_rate / 2))
    ∧ (s.pending = true :: pp → s.current_call_frames = fr :: rest →
        (step s (Event.exit t)).function_avg_times fr.name
          = some (9/10 * ((s.function_avg_times fr.name).getD 0)
              + 1/10 * (t - fr.start_time))) := by
  refine ⟨?_, ?_, ?_, ?_⟩
  · intro hnone
    simp [effectiveRate, had, hnone]
  · intro hsome hslow
    simp only [effectiveRate, had, if_true, hsome]
    rw [if_pos hslow]
  · intro hsome hfast
    have h1 : ¬ (1/1000 < a) := not_lt.mpr (hfast.trans (by norm_num))
    have h2 : ¬ (1/10000 < a) := not_lt.mpr hfast
    simp only [effectiveRate, had, if_true, hsome]
    rw [if_neg h1, if_neg h2]
  · intro hp hcf
    cases rest with
    | nil => simp [step, hp, hcf, had]
    | cons parent rs => simp [step, hp, hcf, had]

/-- State with a slow recorded average and one open call, instantiating
the C8 theorem (slow-function branch and the average update). -/
def c8State : ProfilerState :=
  { CPUProfiler_init (1/4) true with
      is_running := true
      function_avg_times := fun g => if g = "f" then some (1/500) else none
      pending := [true]
      current_call_frames := [⟨"f", "m", 1, 2, []⟩] }

theorem claim_C8_witness :
    c8State.function_avg_times "f" = some (1/500)
    ∧ (1/1000 : ℚ) < 1/500
    ∧ effectiveRate c8State "f" = min 1 (c8State.sampling_rate * 2)
    ∧ (step c8State (Event.exit 5)).function_avg_times "f"
        = some (9/10 * ((c8State.function_avg_times "f").getD 0) + 1/10 * (5 - 2)) := by
  have h := claim_C8_adaptive_policy c8State "f" (1/500) 5
    ⟨"f", "m", 1, 2, []⟩ [] [] rfl
  refine ⟨by simp [c8State], by norm_num, ?_, ?_⟩
  · exact h.2.1 (by simp [c8State]) (by norm_num)
  · exact h.2.2.2 rfl rfl

/-- Adaptive trace in which f (from time 1 to 5) calls g (from 2 to 4),
used by the C8 counterexample. -/
def c8Events : List Event :=
  [Event.start 0, Event.enter "f" "m" 1 0 1, Event.enter "g" "m" 2 0 2,
   Event.exit 4, Event.exit 5]

/-- C8 counterexample: the moving average is fed the inclusive elapsed
duration, not the own duration.  After the trace, f's recorded average is
0.1 times 4 = 2/5 (its call lasted from 1 to 5), while its own time (shown
by the call tree) is 2, and an average of own durations would read
0.9 times 0 + 0.1 times 2 = 1/5. -/
theorem claim_C8_counterexample :
    (run (CPUProfiler_init 1 true) c8Events).function_avg_times "f" = some (2/5)
    ∧ (run (CPUProfiler_init 1 true) c8Events).call_tree.map CallFrame.own_time = [2]
    ∧ (2/5 : ℚ) ≠ 9/10 * 0 + 1/10 * 2 := by
  have hfg : ("f" : String) ≠ "g" := by decide
  have hgf : ("g" : String) ≠ "f" := by decide
  refine ⟨?_, ?_, by norm_num⟩
  · norm_num [c8Events, run, step, CPUProfiler_init, effectiveRate, appendTime, hfg, hgf]
  · norm_num [c8Events, run, step, CPUProfiler_init, effectiveRate, appendTime,
      CallFrame.own_time, CallFrame.duration, hfg, hgf]

/-- C9 amended: the statistics reduction tolerates unfinished frames (ones
whose end_time is still the 0 sentinel): every frame's contribution to the
own-time walk is max(0, ...) and hence never negative, every accumulated
per-name own-time total is nonnegative, and an unfinished frame whose
children are all finished (child start at or before child end, nonnegative
clock values) contributes exactly zero.  An unfinished frame with an
unfinished child, however, is not skipped: it contributes the (real,
nonnegative) own time accrued before that child entered, as the C9
counterexample shows. -/
theorem claim_C9_unfinished_frames_tolerated (c : CallFrame)
    (roots : List CallFrame) (f : String) :
    0 ≤ c.own_time
    ∧ (c.end_time = 0 → 0 ≤ c.start_time →
        (∀ ch ∈ c.children, ch.start_time ≤ ch.end_time) → c.own_time = 0)
    ∧ 0 ≤ (alookup (calculate_own_time_recursive_list roots []) f).getD 0 := by
  refine ⟨own_time_nonneg c, ?_, ?_⟩
  · intro hend hst hch
    have hsum : 0 ≤ (c.children.map CallFrame.duration).sum := by
      apply List.sum_nonneg
      intro x hx
      obtain ⟨ch, hmem, hxe⟩ := List.mem_map.mp hx
      have hle := hch ch hmem
      rw [← hxe]
      unfold CallFrame.duration
      linarith
    have hdur : c.duration = 0 - c.start_time := by
      unfold CallFrame.duration
      rw [hend]
    unfold CallFrame.own_time
    rw [hdur]
    exact max_eq_left (by linarith)
  · cases hlk : alookup (calculate_own_time_recursive_list roots []) f with
    | none => simp
    | some v =>
        have hv := nonneg_calc_list roots [] (by simp) (f, v) (alookup_mem _ _ _ hlk)
        simpa using hv

/-- Unfinished frame (end_time sentinel 0) with one finished child,
instantiating the C9 theorem: its contribution to the walk is zero. -/
def c9Frame : CallFrame := ⟨"f", "m", 1, 10, 0, [⟨"g", "m", 2, 20, 24, []⟩]⟩

theorem claim_C9_witness :
    0 ≤ c9Frame.own_time
    ∧ c9Frame.own_time = 0
    ∧ 0 ≤ (alookup (calculate_own_time_recursive_list [c9Frame] []) "f").getD 0 := by
  obtain ⟨h1, h2, h3⟩ := claim_C9_unfinished_frames_tolerated c9Frame [c9Frame] "f"
  refine ⟨h1, ?_, h3⟩
  apply h2 rfl (by norm_num [c9Frame])
  intro ch hch
  simp [c9Frame] at hch
  rw [hch]
  norm_num

/-- Session in which f completes one call (own time 1), then a second call
of f is still open, with an open call of g nested inside it, when the
session stops; used by the C9 counterexample. -/
def c9Events : List Event :=
  [Event.start 0, Event.enter "f" "m" 1 (1/2) 1, Event.exit 2,
   Event.enter "f" "m" 1 (1/2) 10, Event.enter "g" "m" 2 (1/2) 20, Event.stop 24]

/-- C9 counterexample: an unfinished frame is not always treated as skipped
or zero-duration.  With two calls open at stop (f entered at 10, its child
g entered at 20), get_stats reports own_time 11 for f: 1 from the finished
call plus 10 contributed by the unfinished f frame (the 0 sentinels make
its duration -10 and its child sum -20, so max(0, -10 - (-20)) = 10), while
skipping or zeroing the unfinished frames would report 1 (the walk over the
finished part of the tree alone yields 1). -/
theorem claim_C9_counterexample :
    (run (CPUProfiler_init 1 false) c9Events).current_call_frames.length = 2
    ∧ (statsFind (get_stats (run (CPUProfiler_init 1 false) c9Events) 25) "f").map
        FunctionStats.own_time = some 11
    ∧ specOwnList "f" (run (CPUProfiler_init 1 false) c9Events).call_tree = 1
    ∧ (11 : ℚ) ≠ 1 := by
  have hfg : ("f" : String) ≠ "g" := by decide
  have hgf : ("g" : String) ≠ "f" := by decide
  refine ⟨?_, ?_, ?_, by norm_num⟩
  · norm_num [c9Events, run, step, CPUProfiler_init, effectiveRate, appendTime, hfg, hgf]
  · norm_num [c9Events, run, step, CPUProfiler_init, effectiveRate, appendTime, hfg, hgf,
      statsFind, get_stats, buildFunctionStats, alookup, snapshotTree, materializeOpen,
      calculate_own_time_recursive, calculate_own_time_recursive_list, bumpOwn,
      CallFrame.own_time, CallFrame.duration, elapsedAt]
  · norm_num [c9Events, run, step, CPUProfiler_init, effectiveRate, appendTime, hfg, hgf,
      specOwnList, specOwn, CallFrame.own_time, CallFrame.duration]

theorem get_stats_ownSum (s : ProfilerState) (now : ℚ) (h : s.function_times ≠ []) :
    (get_stats s now).map statsOwnSum
      = some ((s.function_times.map (fun p =>
          (alookup (calculate_own_time_recursive_list (snapshotTree s) []) p.1).getD
            p.2.sum)).sum) := by
  cases hft : s.function_times with
  | nil => exact absurd hft h
  | cons p rest =>
      unfold get_stats
      rw [hft]
      simp only [Option.map_some]
      rw [← hft]
      simp only [Option.map_some', statsOwnSum, List.map_map]
      refine congrArg some (congrArg List.sum (List.map_congr_left (fun q _ => rfl)))

/-- C3 amended: for every snapshot taken of a single fully-measured
session -- no call still open, the timing dict has pairwise distinct keys,
every sampled function appears in the call tree, and the call tree is a
properly nested sequence of frames inside the window from the timer start
to its effective end -- the sum of the reported own_time over all functions
is at most the reported total_time.  (Restarting the session without
reset() breaks the invariant, as the C3 counterexample shows.) -/
theorem claim_C3_own_sum_le_total_single_session (s : ProfilerState)
    (now q qT : ℚ)
    (hopen : s.current_call_frames = [])
    (hnodup : (s.function_times.map Prod.fst).Nodup)
    (hmem : ∀ p ∈ s.function_times, mentionsList p.1 s.call_tree = true)
    (hwf : SeqWF s.timer_start (if s.timer_end = 0 then now else s.timer_end) s.call_tree)
    (hq : (get_stats s now).map statsOwnSum = some q)
    (hqT : (get_stats s now).map ProfilerStats.total_time = some qT) :
    q ≤ qT := by
  have hne : s.function_times ≠ [] := by
    intro hft
    rw [(get_stats_eq_none_iff s now).mpr hft] at hq
    simp at hq
  have hsnap : snapshotTree s = s.call_tree := by
    simp [snapshotTree, materializeOpen, hopen]
  have hT := get_stats_total_time s now hne
  rw [hT] at hqT
  have hqT2 : qT = elapsedAt s now := (Option.some.inj hqT).symm
  have hQ := get_stats_ownSum s now hne
  rw [hQ] at hq
  have hq2 : q = (s.function_times.map (fun p =>
      (alookup (calculate_own_time_recursive_list (snapshotTree s) []) p.1).getD
        p.2.sum)).sum := (Option.some.inj hq).symm
  rw [hsnap] at hq2
  have hpoint : ∀ p ∈ s.function_times,
      (alookup (calculate_own_time_recursive_list s.call_tree []) p.1).getD p.2.sum
        = (alookup (calculate_own_time_recursive_list s.call_tree []) p.1).getD 0 := by
    intro p hp
    rw [alookup_calc_list]
    simp [hmem p hp]
  rw [List.map_congr_left hpoint] at hq2
  have hkeys : (s.function_times.map (fun p =>
      (alookup (calculate_own_time_recursive_list s.call_tree []) p.1).getD 0)).sum
      = ((s.function_times.map Prod.fst).map (fun k =>
          (alookup (calculate_own_time_recursive_list s.call_tree []) k).getD 0)).sum := by
    rw [List.map_map]
    rfl
  have hnn := nonneg_calc_list s.call_tree [] (by simp)
  have hle1 := sum_lookup_le (s.function_times.map Prod.fst)
      (calculate_own_time_recursive_list s.call_tree []) hnodup hnn
  have hsum2 : ((calculate_own_time_recursive_list s.call_tree []).map Prod.snd).sum
      = totalOwnList s.call_tree := by
    simpa using sum_calc_list s.call_tree []
  have hle2 := seqWF_totalOwn_le_window hwf
  have helapsed : elapsedAt s now
      = (if s.timer_end = 0 then now else s.timer_end) - s.timer_start := by
    unfold elapsedAt
    by_cases hte : s.timer_end = 0
    · simp [hte]
    · simp [hte]
  rw [hq2, hkeys, hqT2, helapsed]
  linarith [hle1, hle2, hsum2]

/-- Single completed session used by the C3 witness: one call of f from 1
to 2 inside the window from 0 to 3. -/
def c3State : ProfilerState :=
  { CPUProfiler_init 1 false with
      function_times := [("f", [1])]
      call_tree := [⟨"f", "m", 1, 1, 2, []⟩]
      timer_end := 3 }

theorem claim_C3_witness :
    c3State.current_call_frames = []
    ∧ (c3State.function_times.map Prod.fst).Nodup
    ∧ (∀ p ∈ c3State.function_times, mentionsList p.1 c3State.call_tree = true)
    ∧ SeqWF c3State.timer_start
        (if c3State.timer_end = 0 then 5 else c3State.timer_end) c3State.call_tree
    ∧ (get_stats c3State 5).map statsOwnSum = some 1
    ∧ (get_stats c3State 5).map ProfilerStats.total_time = some 3
    ∧ (1 : ℚ) ≤ 3 := by
  have hmem : ∀ p ∈ c3State.function_times, mentionsList p.1 c3State.call_tree = true := by
    intro p hp
    simp [c3State, CPUProfiler_init] at hp
    rw [hp]
    simp [c3State, CPUProfiler_init, mentionsList, CallFrame.mentions]
  have hwf : SeqWF c3State.timer_start
      (if c3State.timer_end = 0 then 5 else c3State.timer_end) c3State.call_tree := by
    have h2 : (if c3State.timer_end = 0 then (5 : ℚ) else c3State.timer_end) = 3 := by
      norm_num [c3State, CPUProfiler_init]
    rw [h2]
    show SeqWF 0 3 [⟨"f", "m", 1, 1, 2, []⟩]
    refine SeqWF.cons 0 3 _ _ (by norm_num) (by norm_num) ?_ ?_
    · exact SeqWF.nil 1 2 (by norm_num)
    · exact SeqWF.nil 2 3 (by norm_num)
  have hq : (get_stats c3State 5).map statsOwnSum = some 1 := by
    norm_num [c3State, CPUProfiler_init, get_stats, statsOwnSum, buildFunctionStats,
      elapsedAt, snapshotTree, materializeOpen, calculate_own_time_recursive,
      calculate_own_time_recursive_list, bumpOwn, alookup, CallFrame.own_time,
      CallFrame.duration]
  have hqT : (get_stats c3State 5).map ProfilerStats.total_time = some 3 := by
    norm_num [c3State, CPUProfiler_init, get_stats, elapsedAt]
  exact ⟨rfl, by simp [c3State, CPUProfiler_init], hmem, hwf, hq, hqT,
    claim_C3_own_sum_le_total_single_session c3State 5 1 3 rfl
      (by simp [c3State, CPUProfiler_init]) hmem hwf hq hqT⟩

/-- Session completed at time 3 and then restarted at time 10 without a
reset, used by the C3 counterexample. -/
def c3BadEvents : List Event :=
  [Event.start 0, Event.enter "f" "m" 1 (1/2) 1, Event.exit 2, Event.stop 3,
   Event.start 10]

/-- C3 counterexample: Timer.start does not clear the old end stamp, so
after stop at 3 and a restart at 10 the snapshot total_time is 3 - 10 = -7
while the recorded own time sums to 1, violating the invariant on a
reachable get_stats snapshot. -/
theorem claim_C3_counterexample :
    (get_stats (run (CPUProfiler_init 1 false) c3BadEvents) 11).map statsOwnSum = some 1
    ∧ (get_stats (run (CPUProfiler_init 1 false) c3BadEvents) 11).map
        ProfilerStats.total_time = some (-7)
    ∧ ¬ ((1 : ℚ) ≤ -7) := by
  refine ⟨?_, ?_, by norm_num⟩
  · norm_num [c3BadEvents, run, step, CPUProfiler_init, effectiveRate, appendTime,
      get_stats, statsOwnSum, buildFunctionStats, elapsedAt, snapshotTree,
      materializeOpen, calculate_own_time_recursive, calculate_own_time_recursive_list,
      bumpOwn, alookup, CallFrame.own_time, CallFrame.duration]
  · norm_num [c3BadEvents, run, step, CPUProfiler_init, effectiveRate, appendTime,
      get_stats, elapsedAt]
